import Mathlib

/-!
Verification of `epub_read_more_easily` (src/epub_read_more_easily/__init__.py).

The Python program rewrites the text of an HTML document so that, inside
every word, the syllables at odd 0-based indices are wrapped in a bold tag.
This file shallowly embeds the program's pure logic:

  * the tokenizer of `process_text_node` — `re.split(r"(\b\w+\b)", s)`
    followed by dropping empty parts.  With a capturing group, `re.split`
    returns the text between matches interleaved with the captured matches;
    since `\b` is zero-width and `\w+` is greedy between two `\b`s, the
    matches are exactly the maximal runs of word characters, so the split
    is the partition of the string into maximal runs of word / non-word
    characters.  We embed that partition directly (ASCII model of `\w`:
    letters, digits, underscore).
  * `create_styled_syllables`, with the `Hyphenator.syllables` call
    abstracted as a function `String → Except String (List String)`
    (`Except.error` models a raised exception).
  * the per-node eligibility gate of `process_html_content`
    (comment / stripped-empty check and the ancestor-tag walk).
  * `get_hyphenator` with its module-level cache, as explicit state
    passing; constructing a `Hyphenator` is modelled as drawing a fresh
    handle id and counting the construction.
  * `process_html_file_content` and the CLI driver
    `emphasize_file_content`, with the filesystem and the parser as
    environment parameters and an explicit trace of run steps and of the
    files written.
-/

/-- ASCII model of Python's regex class `\w`: letters, digits and the
underscore. -/
def isWordChar (c : Char) : Bool :=
  c.isAlpha || c.isDigit || c == '_'

/-- ASCII model of Python's `str.isalnum` on a single character: letters and
digits only (the underscore is *not* alphanumeric). -/
def pyIsAlnumChar (c : Char) : Bool :=
  c.isAlpha || c.isDigit

/-- Python's `str.isalnum`: nonempty and every character alphanumeric. -/
def pyIsAlnum (s : String) : Bool :=
  !s.data.isEmpty && s.data.all pyIsAlnumChar

/-- Python's `not s.strip()` test: the string has no non-whitespace
character (`str.strip()` of it is empty). -/
def strippedEmpty (s : String) : Bool :=
  s.data.all Char.isWhitespace

/-- Partition of a character list into maximal runs of characters agreeing
on `isWordChar`.  This is the behaviour of
`re.split(r"(\b\w+\b)", s)` followed by dropping empty parts
(`process_text_node`, lines 138–140): the captured matches are the maximal
`\w` runs and the gaps between them are the non-word runs. -/
def tokenizeChars : List Char → List (List Char)
  | [] => []
  | c :: cs =>
    match tokenizeChars cs with
    | [] => [[c]]
    | t :: ts =>
      match t with
      | [] => [c] :: ts
      | d :: _ =>
        if isWordChar c == isWordChar d then (c :: t) :: ts
        else [c] :: t :: ts

/-- The tokenizer of `process_text_node`, on strings. -/
def tokenize (s : String) : List String :=
  (tokenizeChars s.data).map (fun cs => String.mk cs)

/-- Concatenation of a list of strings in order. -/
def concatStrings : List String → String
  | [] => ""
  | s :: rest => s ++ concatStrings rest

theorem tokenizeChars_join (l : List Char) : (tokenizeChars l).flatten = l := by
  induction l with
  | nil => rfl
  | cons c cs ih =>
    unfold tokenizeChars
    cases h : tokenizeChars cs with
    | nil =>
      rw [h] at ih
      simp at ih
      simp [ih]
    | cons t ts =>
      rw [h] at ih
      cases t with
      | nil =>
        simp at ih ⊢
        exact ih
      | cons d t0 =>
        by_cases hw : isWordChar c == isWordChar d
        · simp only [hw, if_pos rfl, List.flatten]
          simp at ih ⊢
          exact ih
        · simp only [hw]
          simp at hw
          simp [hw] at ih ⊢
          exact ih

theorem tokenizeChars_ne_nil (l : List Char) :
    ∀ t ∈ tokenizeChars l, t ≠ [] := by
  induction l with
  | nil => intro t ht; simp [tokenizeChars] at ht
  | cons c cs ih =>
    intro t ht
    unfold tokenizeChars at ht
    cases h : tokenizeChars cs with
    | nil => rw [h] at ht; simp at ht; simp [ht]
    | cons u ts =>
      rw [h] at ht
      cases u with
      | nil =>
        simp at ht
        rcases ht with ht | ht
        · simp [ht]
        · exact ih t (by rw [h]; exact List.mem_cons_of_mem _ ht)
      | cons d u0 =>
        by_cases hw : isWordChar c == isWordChar d
        · simp only [hw, if_pos rfl] at ht
          simp at ht
          rcases ht with ht | ht
          · simp [ht]
          · exact ih t (by rw [h]; exact List.mem_cons_of_mem _ ht)
        · simp only [hw] at ht
          simp at hw
          simp [hw] at ht
          rcases ht with ht | ht | ht
          · simp [ht]
          · exact ih t (by rw [h]; simp [ht])
          · exact ih t (by rw [h]; exact List.mem_cons_of_mem _ ht)

theorem concatStrings_data (l : List String) :
    (concatStrings l).data = (l.map String.data).flatten := by
  induction l with
  | nil => rfl
  | cons s rest ih =>
    show (s ++ concatStrings rest).data = _
    rw [String.data_append, ih]
    rfl

/-- Claim C2: for every input string `s`, the tokenizer
(`re.split` on the word-boundary pattern followed by dropping empty parts)
produces an ordered list of non-empty tokens whose concatenation in order
equals `s` exactly. -/
theorem claim_C2 (s : String) :
    (∀ t ∈ tokenize s, t ≠ "") ∧ concatStrings (tokenize s) = s := by
  constructor
  · intro t ht
    unfold tokenize at ht
    rcases List.mem_map.mp ht with ⟨cs, hcs, rfl⟩
    have hne := tokenizeChars_ne_nil s.data cs hcs
    intro hcontra
    apply hne
    have : (String.mk cs).data = ("" : String).data := by rw [hcontra]
    simpa using this
  · apply String.ext
    rw [concatStrings_data]
    unfold tokenize
    rw [List.map_map]
    have : (String.data ∘ fun cs => String.mk cs) = id := by
      funext cs; rfl
    rw [this, List.map_id]
    exact tokenizeChars_join s.data

/-- A styled fragment: an emphasized fragment models a `<b>` tag wrapping the
text, a non-emphasized one models a bare `NavigableString`. -/
structure Fragment where
  text : String
  emphasized : Bool
deriving DecidableEq, Repr

/-- Embedding of `create_styled_syllables` (lines 101–121).  The
`hyphenator.syllables` call is the parameter `hyph`; `Except.error` models a
raised exception, which the function catches and turns into a single plain
fragment, so no exception propagates to the caller. -/
def create_styled_syllables (hyph : String → Except String (List String))
    (word : String) : List Fragment :=
  match hyph word with
  | .error _ => [⟨word, false⟩]
  | .ok syllables =>
    if syllables.isEmpty = true ∨ syllables.length ≤ 1 then [⟨word, false⟩]
    else syllables.enum.map (fun is => ⟨is.2, is.1 % 2 == 1⟩)

/-- Number of odd indices below `n` is `n / 2`. -/
theorem countP_range_odd (n : Nat) :
    (List.range n).countP (fun i => i % 2 == 1) = n / 2 := by
  induction n with
  | zero => rfl
  | succ n ih =>
    rw [List.range_succ, List.countP_append, ih]
    rcases Nat.mod_two_eq_zero_or_one n with h | h
    · simp [List.countP, List.countP.go, h]
      omega
    · simp [List.countP, List.countP.go, h]
      omega

theorem countP_enum_fst {α : Type} (l : List α) (p : Nat → Bool) :
    l.enum.countP (fun is => p is.1) = (List.range l.length).countP p := by
  rw [← List.enum_map_fst l, List.countP_map]
  rfl

/-- Claim C1: for a word whose hyphenation yields `n ≥ 2` syllables, the
styler emits the syllables in original order as `n` fragments, the fragment
at 0-based index `i` is emphasized iff `i` is odd, exactly `n / 2` fragments
are emphasized, and the fragment texts concatenate to the concatenation of
the hyphenator's syllables. -/
theorem claim_C1 (hyph : String → Except String (List String)) (word : String)
    (syls : List String) (hok : hyph word = .ok syls) (hn : 2 ≤ syls.length) :
    (create_styled_syllables hyph word).length = syls.length ∧
    (create_styled_syllables hyph word).map Fragment.text = syls ∧
    (∀ i, (hi : i < (create_styled_syllables hyph word).length) →
      ((create_styled_syllables hyph word).get ⟨i, hi⟩).emphasized = true ↔ i % 2 = 1) ∧
    ((create_styled_syllables hyph word).filter Fragment.emphasized).length = syls.length / 2 ∧
    concatStrings ((create_styled_syllables hyph word).map Fragment.text) = concatStrings syls := by
  have hfr : create_styled_syllables hyph word =
      syls.enum.map (fun is => ⟨is.2, is.1 % 2 == 1⟩) := by
    unfold create_styled_syllables
    rw [hok]
    show (if syls.isEmpty = true ∨ syls.length ≤ 1 then [(⟨word, false⟩ : Fragment)]
          else syls.enum.map (fun is => (⟨is.2, is.1 % 2 == 1⟩ : Fragment))) = _
    rw [if_neg]
    intro h
    rcases h with h | h
    · rw [List.isEmpty_iff] at h
      subst h
      simp at hn
    · omega
  have hmap : (create_styled_syllables hyph word).map Fragment.text = syls := by
    rw [hfr, List.map_map]
    exact List.enum_map_snd syls
  refine ⟨?_, hmap, ?_, ?_, congrArg concatStrings hmap⟩
  · rw [hfr]
    simp
  · intro i hi
    simp only [hfr, List.get_eq_getElem, List.getElem_map, List.getElem_enum]
    simp
  · rw [hfr, ← List.countP_eq_length_filter, List.countP_map]
    have h2 : List.countP
        (Fragment.emphasized ∘ fun is => (⟨is.2, is.1 % 2 == 1⟩ : Fragment)) syls.enum
        = (List.range syls.length).countP (fun i => i % 2 == 1) :=
      countP_enum_fst syls (fun i => i % 2 == 1)
    rw [h2, countP_range_odd]

theorem claim_C1_witness :
    (create_styled_syllables (fun _ => Except.ok ["Sil", "ben", "tren", "nung"])
        "Silbentrennung").map Fragment.text = ["Sil", "ben", "tren", "nung"] ∧
    ((create_styled_syllables (fun _ => Except.ok ["Sil", "ben", "tren", "nung"])
        "Silbentrennung").filter Fragment.emphasized).length = 2 :=
  ⟨(claim_C1 (fun _ => Except.ok ["Sil", "ben", "tren", "nung"]) "Silbentrennung"
      ["Sil", "ben", "tren", "nung"] rfl (by decide)).2.1,
   (claim_C1 (fun _ => Except.ok ["Sil", "ben", "tren", "nung"]) "Silbentrennung"
      ["Sil", "ben", "tren", "nung"] rfl (by decide)).2.2.2.1⟩

/-- Claim C3: if the hyphenator raises an exception, or returns zero or one
syllable, the styler returns exactly one non-emphasized fragment holding the
original word; the exception is caught inside the styler, not propagated. -/
theorem claim_C3 (hyph : String → Except String (List String)) (word : String)
    (h : (∃ e, hyph word = .error e) ∨
         ∃ syls, hyph word = .ok syls ∧ syls.length ≤ 1) :
    create_styled_syllables hyph word = [⟨word, false⟩] := by
  unfold create_styled_syllables
  rcases h with ⟨e, he⟩ | ⟨syls, hok, hlen⟩
  · rw [he]
  · rw [hok]
    show (if syls.isEmpty = true ∨ syls.length ≤ 1 then [(⟨word, false⟩ : Fragment)]
          else syls.enum.map (fun is => (⟨is.2, is.1 % 2 == 1⟩ : Fragment))) = _
    rw [if_pos (Or.inr hlen)]

theorem claim_C3_witness :
    create_styled_syllables (fun _ => Except.error "fault") "Hi" = [⟨"Hi", false⟩] ∧
    create_styled_syllables (fun _ => Except.ok ["Hi"]) "Hi" = [⟨"Hi", false⟩] :=
  ⟨claim_C3 (fun _ => Except.error "fault") "Hi" (Or.inl ⟨"fault", rfl⟩),
   claim_C3 (fun _ => Except.ok ["Hi"]) "Hi" (Or.inr ⟨["Hi"], rfl, by decide⟩)⟩

/-- Per-token branch of `process_text_node` (lines 146–157): a token that is
alphanumeric (`part.isalnum()`) and longer than one character is styled via
`create_styled_syllables`; every other token becomes one plain fragment. -/
def tokenFragments (hyph : String → Except String (List String))
    (part : String) : List Fragment :=
  if pyIsAlnum part && decide (1 < part.length) then
    create_styled_syllables hyph part
  else [⟨part, false⟩]

/-- Claim C10: a tokenizer token that is a `\w`-word but contains an
underscore fails the `isalnum()` secondary check, so it is never passed to
the hyphenator and is emitted as one unemphasized fragment equal to the
token text. -/
theorem claim_C10 (hyph : String → Except String (List String)) (s t : String)
    (ht : t ∈ tokenize s) (hword : t.data.all isWordChar = true)
    (hu : '_' ∈ t.data) :
    tokenFragments hyph t = [⟨t, false⟩] := by
  have halnum : pyIsAlnum t = false := by
    unfold pyIsAlnum
    have hall : t.data.all pyIsAlnumChar = false := by
      rw [List.all_eq_false]
      exact ⟨'_', hu, by decide⟩
    simp [hall]
  unfold tokenFragments
  rw [halnum]
  simp

theorem claim_C10_witness :
    tokenFragments (fun _ => Except.ok ["foo", "bar"]) "foo_bar"
      = [⟨"foo_bar", false⟩] :=
  claim_C10 (fun _ => Except.ok ["foo", "bar"]) "foo_bar" "foo_bar"
    (by decide) (by decide) (by decide)

/-- Constant `TAGS_TO_SKIP_DIRECT_TEXT` (line 42). -/
def TAGS_TO_SKIP_DIRECT_TEXT : List String :=
  ["script", "style", "pre", "code", "textarea"]

/-- Constant `TAGS_TO_SKIP_COMPLETELY` (line 44). -/
def TAGS_TO_SKIP_COMPLETELY : List String :=
  ["script", "style"]

/-- Kinds of string nodes returned by `soup.find_all(string=True)`.  In
BeautifulSoup, `Comment` and `CData` are sibling subclasses of
`NavigableString`; a CDATA node is *not* an instance of `Comment`. -/
inductive NodeKind
  | text
  | comment
  | cdata
deriving DecidableEq, Repr

/-- A string node together with the tag names of its ancestor chain, from the
immediate parent upward (the BeautifulSoup root is named `[document]`). -/
structure TextNode where
  kind : NodeKind
  content : String
  ancestors : List String
deriving DecidableEq, Repr

/-- The ancestor-walk of `process_html_content` (lines 190–201): walk up from
the immediate parent; stop at a missing parent or the `[document]` root; skip
if an ancestor is in the complete-skip set, or if the immediate parent
(`text_node.parent == current_parent` holds exactly on the first iteration)
is in the direct-text-skip set.  The Boolean argument records whether the
current element is the immediate parent. -/
def skipAncestors : List String → Bool → Bool
  | [], _ => false
  | name :: rest, isImmediate =>
    if name = "[document]" then false
    else if TAGS_TO_SKIP_COMPLETELY.contains name then true
    else if TAGS_TO_SKIP_DIRECT_TEXT.contains name && isImmediate then true
    else skipAncestors rest false

/-- Whether the ancestor walk marks the node to be skipped (`skip_node` in
`process_html_content`). -/
def skip_node (ancestors : List String) : Bool :=
  skipAncestors ancestors true

/-- The kind/content gate of `process_html_content` (lines 184–187):
`isinstance(text_node, (Comment,)) or not text_node.string.strip()`.
Only `Comment` is tested — a CDATA node does not match. -/
def skippedAsCommentOrEmpty (n : TextNode) : Bool :=
  decide (n.kind = NodeKind.comment) || strippedEmpty n.content

/-- A node reaches `process_text_node` (is tokenized, and replaced when its
token list is non-empty) iff it passes both gates of `process_html_content`. -/
def nodeTouched (n : TextNode) : Bool :=
  !skippedAsCommentOrEmpty n && !skip_node n.ancestors

theorem containsStr_iff (l : List String) (a : String) :
    l.contains a = true ↔ a ∈ l := by
  simp

theorem skipAncestors_false_eq (l : List String)
    (h : "[document]" ∉ l) :
    skipAncestors l false = l.any (fun a => TAGS_TO_SKIP_COMPLETELY.contains a) := by
  induction l with
  | nil => rfl
  | cons name rest ih =>
    have hname : name ≠ "[document]" := fun hc => h (hc ▸ List.mem_cons_self _ _)
    have hrest : "[document]" ∉ rest := fun hc => h (List.mem_cons_of_mem _ hc)
    unfold skipAncestors
    rw [if_neg hname, List.any_cons]
    by_cases hcs : TAGS_TO_SKIP_COMPLETELY.contains name = true
    · rw [if_pos hcs, hcs]
      simp
    · have hcsf : TAGS_TO_SKIP_COMPLETELY.contains name = false :=
        Bool.eq_false_iff.mpr hcs
      rw [if_neg hcs]
      simp only [Bool.and_false, Bool.false_eq_true, if_false]
      rw [hcsf, Bool.false_or]
      exact ih hrest

theorem skip_node_iff (l : List String) (h : "[document]" ∉ l) :
    skip_node l = true ↔
      (∃ a ∈ l, a ∈ TAGS_TO_SKIP_COMPLETELY) ∨
      (∃ p, l.head? = some p ∧ p ∈ TAGS_TO_SKIP_DIRECT_TEXT) := by
  cases l with
  | nil => simp [skip_node, skipAncestors]
  | cons name rest =>
    have hname : name ≠ "[document]" := fun hc => h (hc ▸ List.mem_cons_self _ _)
    have hrest : "[document]" ∉ rest := fun hc => h (List.mem_cons_of_mem _ hc)
    unfold skip_node skipAncestors
    rw [if_neg hname]
    by_cases hcs : TAGS_TO_SKIP_COMPLETELY.contains name = true
    · rw [if_pos hcs]
      exact iff_of_true rfl
        (Or.inl ⟨name, List.mem_cons_self name rest, (containsStr_iff _ _).mp hcs⟩)
    · rw [if_neg hcs]
      simp only [Bool.and_true]
      by_cases hdt : TAGS_TO_SKIP_DIRECT_TEXT.contains name = true
      · rw [if_pos hdt]
        exact iff_of_true rfl
          (Or.inr ⟨name, rfl, (containsStr_iff _ _).mp hdt⟩)
      · have hcs2 : name ∉ TAGS_TO_SKIP_COMPLETELY :=
          fun hc => hcs ((containsStr_iff _ _).mpr hc)
        have hdt2 : name ∉ TAGS_TO_SKIP_DIRECT_TEXT :=
          fun hc => hdt ((containsStr_iff _ _).mpr hc)
        rw [if_neg hdt, skipAncestors_false_eq rest hrest]
        simp only [List.any_eq_true, List.head?_cons, Option.some.injEq]
        constructor
        · rintro ⟨a, ha, hma⟩
          exact Or.inl ⟨a, List.mem_cons_of_mem _ ha, (containsStr_iff _ _).mp hma⟩
        · rintro (⟨a, ha, hma⟩ | ⟨p, hp, hmp⟩)
          · rcases List.mem_cons.mp ha with rfl | ha2
            · exact absurd hma hcs2
            · exact ⟨a, ha2, (containsStr_iff _ _).mpr hma⟩
          · cases hp
            exact absurd hmp hdt2

/-- Claim C4: a text node is untouched whenever some ancestor is in the
complete-skip set or its immediate parent is in the direct-text-skip set;
conversely, a plain, non-blank text node with a direct-text-skip tag only at
distance two or more (and no complete-skip ancestor) is still processed. -/
theorem claim_C4 (n : TextNode) (hdoc : "[document]" ∉ n.ancestors) :
    (((∃ a ∈ n.ancestors, a ∈ TAGS_TO_SKIP_COMPLETELY) ∨
      (∃ p, n.ancestors.head? = some p ∧ p ∈ TAGS_TO_SKIP_DIRECT_TEXT)) →
        nodeTouched n = false) ∧
    (n.kind = NodeKind.text → strippedEmpty n.content = false →
      (∀ a ∈ n.ancestors, a ∉ TAGS_TO_SKIP_COMPLETELY) →
      (∀ p, n.ancestors.head? = some p → p ∉ TAGS_TO_SKIP_DIRECT_TEXT) →
        nodeTouched n = true) := by
  constructor
  · intro h
    have hs : skip_node n.ancestors = true := (skip_node_iff n.ancestors hdoc).mpr h
    unfold nodeTouched
    rw [hs]
    simp
  · intro hkind hstrip hcs hdt
    have hs : skip_node n.ancestors = false := by
      rw [← Bool.not_eq_true]
      intro hc
      rcases (skip_node_iff n.ancestors hdoc).mp hc with ⟨a, ha, hmem⟩ | ⟨p, hp, hmem⟩
      · exact hcs a ha hmem
      · exact hdt p hp hmem
    unfold nodeTouched skippedAsCommentOrEmpty
    rw [hs, hkind, hstrip]
    simp

theorem claim_C4_witness :
    nodeTouched ⟨NodeKind.text, "ab", ["b", "pre"]⟩ = true :=
  (claim_C4 ⟨NodeKind.text, "ab", ["b", "pre"]⟩ (by decide)).2 rfl (by decide)
    (by decide) (by decide)

/-- Claim C6 (code bug): the gate of `process_html_content` skips comment
nodes and blank strings, but a CDATA node with non-blank content passes the
`isinstance(text_node, (Comment,))` test — only `Comment` is listed — and is
therefore tokenized and replaced, although the code's own comment says
"Skip comments, CDATA sections, empty strings". -/
theorem claim_C6 :
    nodeTouched ⟨NodeKind.comment, "ab", ["p"]⟩ = false ∧
    nodeTouched ⟨NodeKind.text, " ", ["p"]⟩ = false ∧
    nodeTouched ⟨NodeKind.cdata, "ab", ["p"]⟩ = true := by
  decide

/-- Constant `TARGET_LANG` (line 39). -/
def TARGET_LANG : String := "de_DE"

/-- Environment of `get_hyphenator`: whether a dictionary is installed
(`dictools.is_installed`), whether `dictools.install` succeeds, whether the
`Hyphenator(lang)` constructor succeeds, and the `syllables` method of a
constructed handle. -/
structure HyphEnv where
  isInstalled : String → Bool
  installSucceeds : String → Bool
  constructSucceeds : String → Bool
  syllables : String → Except String (List String)

/-- Module-level mutable state of `get_hyphenator`: the `_HYPHENATOR_CACHE`
dict and a count of `Hyphenator(lang)` constructor calls.  Each construction
yields a fresh handle id (the current count). -/
structure HyphState where
  cache : List (String × Nat)
  constructions : Nat
deriving DecidableEq, Repr

/-- Embedding of `get_hyphenator` (lines 53–83), faithful to the source: if
`lang` is not a key of the cache, check the installation, install if needed,
and construct a new handle.  Note that the source does `return
Hyphenator(lang)` directly, without ever storing the handle into
`_HYPHENATOR_CACHE`; the final `return _HYPHENATOR_CACHE.get(lang)` runs only
when the key is already present. -/
def get_hyphenator (env : HyphEnv) (lang : String) (st : HyphState) :
    Option Nat × HyphState :=
  if (st.cache.lookup lang).isNone then
    if !env.isInstalled lang && !env.installSucceeds lang then
      (none, st)
    else if env.constructSucceeds lang then
      (some st.constructions, { st with constructions := st.constructions + 1 })
    else (none, st)
  else (st.cache.lookup lang, st)

/-- Environment in which `get_hyphenator` has everything it needs: the
dictionary is installed and construction succeeds for every tag. -/
def c5Env : HyphEnv :=
  ⟨fun _ => true, fun _ => true, fun _ => true, fun _ => Except.ok []⟩

/-- Claim C5 (code bug): `get_hyphenator` never writes into
`_HYPHENATOR_CACHE`, so even with the dictionary installed and construction
succeeding, a second call for the same language tag repeats the whole lookup
and constructs a second, distinct handle, and the cache is still empty
afterwards — so the handle is not constructed at most once per run. -/
theorem claim_C5 :
    (get_hyphenator c5Env TARGET_LANG ⟨[], 0⟩).1 = some 0 ∧
    (get_hyphenator c5Env TARGET_LANG
      (get_hyphenator c5Env TARGET_LANG ⟨[], 0⟩).2).1 = some 1 ∧
    (get_hyphenator c5Env TARGET_LANG
      (get_hyphenator c5Env TARGET_LANG ⟨[], 0⟩).2).2.constructions = 2 ∧
    (get_hyphenator c5Env TARGET_LANG
      (get_hyphenator c5Env TARGET_LANG ⟨[], 0⟩).2).2.cache = [] :=
  ⟨rfl, rfl, rfl, rfl⟩

/-- Stages of `process_html_file_content`. -/
inductive Step
  | initHyphenator
  | parseDocument
  | rewriteNodes
  | serializeDocument
deriving DecidableEq, Repr

/-- Environment of a run: the hyphenation backend and the HTML parsing
library (`BeautifulSoup(html_content, PARSER)`), which yields the document's
string nodes in document order or fails. -/
structure RunEnv where
  hyph : HyphEnv
  parse : String → Except String (List TextNode)

/-- Rewrite of one snapshotted node (`process_text_node` behind the gate of
`process_html_content`): `some` fragment expansion when the node is
replaced, `none` when it is left untouched (gate failed, or no tokens). -/
def rewriteNodeContent (hyph : String → Except String (List String))
    (n : TextNode) : Option (List Fragment) :=
  if nodeTouched n then
    if (tokenize n.content).isEmpty then none
    else some (((tokenize n.content).map (tokenFragments hyph)).flatten)
  else none

/-- Serialization `str(soup)` of one node: an untouched node contributes its
text; a replaced node contributes its fragments, the emphasized ones wrapped
in a bold tag. -/
def serializeNode : TextNode ⊕ List Fragment → String
  | .inl n => n.content
  | .inr frags =>
    concatStrings (frags.map (fun f =>
      if f.emphasized then "<b>" ++ f.text ++ "</b>" else f.text))

/-- Serialization `str(soup)` of the rewritten document. -/
def serializeDoc (doc : List (TextNode ⊕ List Fragment)) : String :=
  concatStrings (doc.map serializeNode)

/-- Fatal errors of `process_html_file_content`: the `RuntimeError` when the
hyphenator is unavailable and the `ValueError` on a parse failure. -/
inductive RunError
  | hyphUnavailable
  | parseFailure
deriving DecidableEq, Repr

/-- Embedding of `process_html_file_content` (lines 235–267): initialize the
hyphenator first and raise when it is unavailable; only then parse, rewrite
every snapshotted node, and serialize.  The second component records which
stages ran. -/
def process_html_file_content (env : RunEnv) (st : HyphState)
    (html_content : String) : Except RunError String × List Step :=
  match get_hyphenator env.hyph TARGET_LANG st with
  | (none, _) => (.error .hyphUnavailable, [.initHyphenator])
  | (some _, _) =>
    match env.parse html_content with
    | .error _ => (.error .parseFailure, [.initHyphenator, .parseDocument])
    | .ok nodes =>
      (.ok (serializeDoc (nodes.map (fun n =>
          match rewriteNodeContent env.hyph.syllables n with
          | none => .inl n
          | some fs => .inr fs))),
       [.initHyphenator, .parseDocument, .rewriteNodes, .serializeDocument])

/-- Claim C7: when `get_hyphenator` yields no handle, the whole run fails
with the hyphenator-unavailable error, and the only stage that ran is the
hyphenator initialization — no parsing, node rewriting or serialization
happens, so there is no partial or degraded processing. -/
theorem claim_C7 (env : RunEnv) (st : HyphState) (html : String)
    (h : (get_hyphenator env.hyph TARGET_LANG st).1 = none) :
    process_html_file_content env st html =
      (.error .hyphUnavailable, [Step.initHyphenator]) := by
  unfold process_html_file_content
  rcases hg : get_hyphenator env.hyph TARGET_LANG st with ⟨o, s2⟩
  rw [hg] at h
  cases o with
  | none => rfl
  | some v => simp at h

/-- Environment in which the hyphenation dictionary is missing and its
installation fails. -/
def c7Env : RunEnv :=
  ⟨⟨fun _ => false, fun _ => false, fun _ => true, fun _ => Except.ok []⟩,
   fun _ => Except.ok []⟩

theorem claim_C7_witness :
    process_html_file_content c7Env ⟨[], 0⟩ "<p>Hallo</p>" =
      (.error .hyphUnavailable, [Step.initHyphenator]) :=
  claim_C7 c7Env ⟨[], 0⟩ "<p>Hallo</p>" rfl

/-- A filesystem path, as the CLI uses it: a parent directory and a file
name (`pathlib` file names). -/
structure FsPath where
  dir : String
  name : String
deriving DecidableEq, Repr

/-- Index of the last `.` in a name (`str.rfind`). -/
def rfindDot : List Char → Option Nat
  | [] => none
  | c :: cs =>
    match rfindDot cs with
    | some i => some (i + 1)
    | none => if c = '.' then some 0 else none

/-- Model of `pathlib.PurePath.suffix`: the part of the name from its last
dot, when that dot is neither the first nor the last character. -/
def pySuffix (name : String) : String :=
  match rfindDot name.data with
  | some i =>
    if 0 < i ∧ i < name.data.length - 1 then String.mk (name.data.drop i) else ""
  | none => ""

/-- Model of `pathlib.PurePath.stem`: the name up to its last dot, under the
same condition as `pySuffix`. -/
def pyStem (name : String) : String :=
  match rfindDot name.data with
  | some i =>
    if 0 < i ∧ i < name.data.length - 1 then String.mk (name.data.take i) else name
  | none => name

/-- Constant `DEFAULT_SUFFIX` (line 45). -/
def DEFAULT_SUFFIX : String := "_syll_emph"

/-- The command-line arguments (class `Args`). -/
structure Args where
  input_path : FsPath
  inplace : Bool
  output_path : Option FsPath
deriving DecidableEq, Repr

/-- User-facing failures of `emphasize_file_content`: the missing-input
`ValueError`, the `AssertionError` on `--inplace` plus an output path, the
unsupported-extension `ValueError`, and a propagated processing error. -/
inductive CliError
  | missingInput
  | inplaceAndOutput
  | unsupportedInput
  | runFailed (e : RunError)
deriving DecidableEq, Repr

/-- Output-path resolution of `emphasize_file_content` (lines 290–296): under
`--inplace` the `assert args.output_path is None` fails when an output path
is also given; with neither option the default is
`input.parent / (input.stem + DEFAULT_SUFFIX + ".html")`. -/
def resolveOutputPath (a : Args) : Except CliError FsPath :=
  if a.inplace then
    match a.output_path with
    | some _ => .error .inplaceAndOutput
    | none => .ok a.input_path
  else
    match a.output_path with
    | none =>
      .ok ⟨a.input_path.dir, pyStem a.input_path.name ++ DEFAULT_SUFFIX ++ ".html"⟩
    | some p => .ok p

/-- The filesystem as the CLI sees it. -/
structure FsEnv where
  fileExists : FsPath → Bool
  readFile : FsPath → String

/-- Embedding of `process_html_file` (lines 208–232): read the input,
process its content, write the result.  Written files are returned as
path/content pairs; fatal errors propagate and nothing is written. -/
def process_html_file (env : RunEnv) (fs : FsEnv) (st : HyphState)
    (input output : FsPath) :
    Except CliError Unit × List (FsPath × String) × List Step :=
  match process_html_file_content env st (fs.readFile input) with
  | (.error e, steps) => (.error (.runFailed e), [], steps)
  | (.ok processed, steps) => (.ok (), [(output, processed)], steps)

/-- Embedding of `emphasize_file_content` (lines 285–303): existence check,
in-place/output resolution, extension gate, then processing. -/
def emphasize_file_content (env : RunEnv) (fs : FsEnv) (st : HyphState)
    (a : Args) : Except CliError Unit × List (FsPath × String) × List Step :=
  if !fs.fileExists a.input_path then (.error .missingInput, [], [])
  else
    match resolveOutputPath a with
    | .error e => (.error e, [], [])
    | .ok output =>
      if pySuffix a.input_path.name = ".html" ∨ pySuffix a.input_path.name = ".xhtml" then
        process_html_file env fs st a.input_path output
      else (.error .unsupportedInput, [], [])

theorem resolveOutputPath_error (a : Args) (e : CliError)
    (h : resolveOutputPath a = .error e) : e = CliError.inplaceAndOutput := by
  unfold resolveOutputPath at h
  split at h
  · split at h
    · injection h with h2
      exact h2.symm
    · simp at h
  · split at h
    · simp at h
    · simp at h

/-- Claim C8: for an existing input path whose extension is neither `.html`
nor `.xhtml`, the run fails with a usage error — the unsupported-extension
error, or already the in-place/output conflict — before any document
processing starts, and no output file is written. -/
theorem claim_C8 (env : RunEnv) (fs : FsEnv) (st : HyphState) (a : Args)
    (hex : fs.fileExists a.input_path = true)
    (hsuf : pySuffix a.input_path.name ≠ ".html" ∧
            pySuffix a.input_path.name ≠ ".xhtml") :
    ∃ e, emphasize_file_content env fs st a = (.error e, [], []) ∧
      (e = CliError.inplaceAndOutput ∨ e = CliError.unsupportedInput) := by
  unfold emphasize_file_content
  cases hro : resolveOutputPath a with
  | error e =>
    refine ⟨e, ?_, Or.inl (resolveOutputPath_error a e hro)⟩
    simp [hex, hro]
  | ok output =>
    refine ⟨CliError.unsupportedInput, ?_, Or.inr rfl⟩
    simp [hex, hro, hsuf.1, hsuf.2]

theorem claim_C8_witness :
    ∃ e, emphasize_file_content c7Env ⟨fun _ => true, fun _ => ""⟩ ⟨[], 0⟩
        ⟨⟨"tmp", "notes.txt"⟩, false, none⟩ = (.error e, [], []) ∧
      (e = CliError.inplaceAndOutput ∨ e = CliError.unsupportedInput) :=
  claim_C8 c7Env ⟨fun _ => true, fun _ => ""⟩ ⟨[], 0⟩
    ⟨⟨"tmp", "notes.txt"⟩, false, none⟩ rfl (by decide)

/-- Claim C9: giving both `--inplace` and an output path is rejected as a
usage error (the assertion, or already the missing-input check) with no
processing and no file write; with neither option the resolved output path
is the input's directory joined with the input stem plus `_syll_emph.html`,
and any file the run writes is written there. -/
theorem claim_C9 (env : RunEnv) (fs : FsEnv) (st : HyphState) (a : Args) :
    (a.inplace = true → a.output_path.isSome = true →
      ∃ e, emphasize_file_content env fs st a = (.error e, [], []) ∧
        (e = CliError.missingInput ∨ e = CliError.inplaceAndOutput)) ∧
    (a.inplace = false → a.output_path = none →
      resolveOutputPath a =
        .ok ⟨a.input_path.dir, pyStem a.input_path.name ++ "_syll_emph.html"⟩ ∧
      ∀ w ∈ (emphasize_file_content env fs st a).2.1,
        w.1 = FsPath.mk a.input_path.dir (pyStem a.input_path.name ++ "_syll_emph.html")) := by
  constructor
  · intro hip hsome
    have hro : resolveOutputPath a = .error .inplaceAndOutput := by
      unfold resolveOutputPath
      rw [if_pos hip]
      cases ho : a.output_path with
      | none => rw [ho] at hsome; simp at hsome
      | some p => rfl
    by_cases hex : fs.fileExists a.input_path = true
    · refine ⟨.inplaceAndOutput, ?_, Or.inr rfl⟩
      unfold emphasize_file_content
      simp [hex, hro]
    · have hexf : fs.fileExists a.input_path = false := Bool.eq_false_iff.mpr hex
      refine ⟨.missingInput, ?_, Or.inl rfl⟩
      unfold emphasize_file_content
      simp [hexf]
  · intro hip hop
    have hro : resolveOutputPath a =
        .ok ⟨a.input_path.dir, pyStem a.input_path.name ++ "_syll_emph.html"⟩ := by
      unfold resolveOutputPath
      rw [if_neg (by simp [hip])]
      rw [hop]
      show Except.ok (FsPath.mk a.input_path.dir
          (pyStem a.input_path.name ++ DEFAULT_SUFFIX ++ ".html")) = _
      rw [String.append_assoc]
      rfl
    refine ⟨hro, ?_⟩
    intro w hw
    unfold emphasize_file_content at hw
    by_cases hex : fs.fileExists a.input_path = true
    · simp only [hex, Bool.not_true, if_false, hro] at hw
      by_cases hsuf : pySuffix a.input_path.name = ".html" ∨
          pySuffix a.input_path.name = ".xhtml"
      · rw [if_pos hsuf] at hw
        unfold process_html_file at hw
        rcases hp : process_html_file_content env st (fs.readFile a.input_path)
          with ⟨r, steps⟩
        rw [hp] at hw
        cases r with
        | error e => simp at hw
        | ok processed =>
          simp at hw
          rw [hw]
      · rw [if_neg hsuf] at hw
        simp at hw
    · have hexf : fs.fileExists a.input_path = false := Bool.eq_false_iff.mpr hex
      simp [hexf] at hw

theorem claim_C9_witness :
    ∃ e, emphasize_file_content c7Env ⟨fun _ => true, fun _ => ""⟩ ⟨[], 0⟩
        ⟨⟨"tmp", "doc.html"⟩, true, some ⟨"tmp", "out.html"⟩⟩ = (.error e, [], []) ∧
      (e = CliError.missingInput ∨ e = CliError.inplaceAndOutput) :=
  (claim_C9 c7Env ⟨fun _ => true, fun _ => ""⟩ ⟨[], 0⟩
    ⟨⟨"tmp", "doc.html"⟩, true, some ⟨"tmp", "out.html"⟩⟩).1 rfl rfl

theorem claim_C2_witness : concatStrings (tokenize "Hi.") = "Hi." :=
  (claim_C2 "Hi.").2
